import Mathlib

/-!
# Verification of `lab_2/lab2.py`

A shallow embedding of the manifest-backed dataset pipeline of
`src/lab_2/lab2.py`: the post-download directory walk of `download_images`,
the CSV manifest writer `save_annotations`, and the manifest reader
`ImageIterator`, together with proofs of the specified properties.

Modelling conventions:

* POSIX paths are modelled at the component level: a path string such as
  `"/a/b"` is represented as `⟨1, ["a", "b"]⟩` — the number of leading
  `'/'` characters (the root; `0` = relative) plus the list of remaining
  components obtained by splitting on `'/'`.  The functions `normpath`,
  `join`, `abspath`, `relpath` and `dirname` below mirror the CPython
  `posixpath` algorithms on this representation, including the
  `initial_slashes` rule that preserves a root of exactly two slashes.
* A CSV file is modelled both as its parsed row list `List (List String)`
  (what `csv.writer` receives) and, for the byte-level format claims, as
  the rendered text produced by `csvRender` below, which mirrors the excel
  dialect: minimal quoting and the `'\r\n'` line terminator (the writer
  opens the file with `newline=''`, so the terminator reaches the file
  untranslated on every platform).
* The reader opens the manifest with plain `mode='r'`, so the stream is
  subject to universal-newlines translation (`'\r\n'` and lone `'\r'`
  become `'\n'`) before `csv.reader` parses it.  Every written line ends
  in `'\r\n'`, which the translation turns into `'\n'`, a terminator
  `csv.reader` accepts, and quoting is preserved, so the net effect on the
  parsed rows is exactly the per-field transform `univField` below; the
  rows the reader sees are `read_rows` of the rows the writer wrote.
* Python exceptions are modelled with `Except`.
-/

namespace Lab2

/-- A POSIX path, split into components: `root` is the number of leading
`'/'` characters (`0` = relative path; CPython's `posixpath` treats a root
of exactly two slashes as distinct from one, and three or more as one),
`comps` is the list of the remaining `'/'`-separated components (which may
contain the literal components `""`, `"."`, `".."` exactly as the
underlying string does). -/
structure PPath where
  root : Nat
  comps : List String
deriving DecidableEq, Repr

/-- Model of `posixpath.isabs`: the path string starts with `'/'`. -/
def isabs (p : PPath) : Bool :=
  p.root != 0

/-- The `initial_slashes` computation of `posixpath.normpath`: a root of
exactly two slashes is preserved, any other nonzero number becomes one. -/
def normRoot (r : Nat) : Nat :=
  if r = 0 then 0 else if r = 2 then 2 else 1

/-- A component is `clean` if it is none of the special components `""`,
`"."`, `".."` that `posixpath.normpath` treats specially. -/
def cleanComp (c : String) : Bool :=
  ¬ (c = "" ∨ c = "." ∨ c = "..")

/-- One step of the component loop of `posixpath.normpath`: `stack` is
the list `new_comps` of already-kept components, in reverse order (most
recent first).  `""` and `"."` are skipped; `".."` pops the last kept
component unless there is none (in which case it is dropped for an
absolute path and kept for a relative one) or the last kept component is
itself `".."`; any other component is kept. -/
def normStep (absolute : Bool) (stack : List String) (comp : String) : List String :=
  if comp = "" ∨ comp = "." then stack
  else if comp = ".." then
    match stack with
    | [] => if absolute then [] else [".."]
    | top :: below => if top = ".." then ".." :: top :: below else below
  else comp :: stack

/-- The component loop of `posixpath.normpath`, folding `normStep` over
the components; the result is the final `new_comps` in order. -/
def normAux (absolute : Bool) : List String → List String → List String
  | stack, [] => stack.reverse
  | stack, comp :: rest => normAux absolute (normStep absolute stack comp) rest

/-- Model of `posixpath.normpath` on the component representation. -/
def normpath (p : PPath) : PPath :=
  ⟨normRoot p.root, normAux (isabs p) [] p.comps⟩

/-- Model of `posixpath.join` of two paths: if the second is absolute it wins,
otherwise its components are appended after the first (keeping the first
path's root). -/
def pjoin (a b : PPath) : PPath :=
  if isabs b then b else ⟨a.root, a.comps ++ b.comps⟩

/-- Model of `posixpath.abspath` relative to the working directory `cwd`:
`normpath(path if isabs(path) else join(cwd, path))`. -/
def abspath (cwd p : PPath) : PPath :=
  normpath (if isabs p then p else pjoin cwd p)

/-- Length of the common prefix of two component lists
(`os.path.commonprefix` on lists, as used by `posixpath.relpath`). -/
def commonPrefixLen : List String → List String → Nat
  | [], _ => 0
  | _ :: _, [] => 0
  | a :: as, b :: bs => if a = b then commonPrefixLen as bs + 1 else 0

/-- The `rel_list` of `posixpath.relpath`, from the two absolute
component lists (both already `'/'`-filtered, so the roots are ignored,
as in the source): `".."` once for each component of `start` past the
common prefix, then the remainder of the target. -/
def relComps (sa pa : List String) : List String :=
  let i := commonPrefixLen sa pa
  List.replicate (sa.length - i) ".." ++ pa.drop i

/-- Model of `posixpath.relpath path start` relative to working directory `cwd`:
both arguments are made absolute, the common prefix of their component
lists is removed, and the remainder of `start` is replaced by `".."`
steps; when the resulting list is empty the function returns `os.curdir`
(`"."`). -/
def relpath (cwd p start : PPath) : PPath :=
  let pa := (abspath cwd p).comps
  let sa := (abspath cwd start).comps
  let rel := relComps sa pa
  if rel = [] then ⟨0, ["."]⟩ else ⟨0, rel⟩

/-- Model of `posixpath.dirname` on the component representation: drop the final
component, keeping the root. -/
def dirname (p : PPath) : PPath :=
  ⟨p.root, p.comps.dropLast⟩

/-- Render a component path back to its string form: the root's
`'/'` characters followed by the `'/'`-separated components. -/
def renderPath (p : PPath) : String :=
  String.mk (List.replicate p.root '/') ++ String.intercalate "/" p.comps

/-! ## CSV rendering (the `csv` module's default excel dialect) -/

/-- Line terminator of the `csv` module's default (excel) dialect.  The
manifest file is opened with `newline=''`, so this two-character sequence
is written to the file verbatim on every platform. -/
def csvTerminator : String := "\r\n"

/-- Whether the excel dialect with minimal quoting must quote a field:
exactly when it contains the delimiter, the quote character, or a newline
character (expressed on the string's character list). -/
def needsQuoting (s : String) : Bool :=
  s.data.any (fun c => c = ',' ∨ c = '"' ∨ c = '\n' ∨ c = '\r')

/-- Render one CSV field: quoted (with internal quotes doubled) exactly
when the field requires it. -/
def csvField (s : String) : String :=
  if needsQuoting s then "\"" ++ s.replace "\"" "\"\"" ++ "\"" else s

/-- Render one CSV row: fields joined with the `','` delimiter. -/
def csvLine : List String → String
  | [] => ""
  | [f] => csvField f
  | f :: rest => csvField f ++ "," ++ csvLine rest

/-- Render rows, each followed by the line terminator `term`, nothing
else. -/
def renderRowsWith (term : String) : List (List String) → String
  | [] => ""
  | r :: rs => csvLine r ++ term ++ renderRowsWith term rs

/-- Render a whole CSV file as `csv.writer` does: each row followed by
the dialect's `"\r\n"` terminator. -/
def csvRender (rows : List (List String)) : String :=
  renderRowsWith csvTerminator rows

/-- What `save_annotations` hands to `csv.writer`, row by row: the header
row `['absolute_path', 'relative_path']`, then for each input image path
(in input order) the row `[os.path.abspath(p),
os.path.relpath(p, start=os.path.dirname(annotation_file))]`. -/
def save_annotations_rows (cwd : PPath) (image_paths : List PPath)
    (annotation_file : PPath) : List (List String) :=
  ["absolute_path", "relative_path"] ::
    image_paths.map (fun p =>
      [renderPath (abspath cwd p),
       renderPath (relpath cwd p (dirname annotation_file))])

/-- The full text that `save_annotations` writes to the manifest file. -/
def save_annotations_text (cwd : PPath) (image_paths : List PPath)
    (annotation_file : PPath) : String :=
  csvRender (save_annotations_rows cwd image_paths annotation_file)

/-- The manifest text as the specification describes it: the same rows,
but terminated with the platform-default line terminator `term` instead of
the dialect's fixed `"\r\n"`.  This definition follows the spec's words
("line terminator per platform default") and exists only to be compared
with `save_annotations_text`, which follows the code. -/
def save_annotations_text_platformDefault (term : String) (cwd : PPath)
    (image_paths : List PPath) (annotation_file : PPath) : String :=
  renderRowsWith term (save_annotations_rows cwd image_paths annotation_file)

/-! ## Universal-newlines translation on the read side

`ImageIterator.load_annotations` opens the manifest with plain
`mode='r'`, so Python's universal-newlines translation rewrites every
`'\r\n'` pair and every lone `'\r'` in the byte stream to `'\n'` before
`csv.reader` sees it.  The `'\r\n'` line terminators written by
`csv.writer` become `'\n'`, which `csv.reader` accepts, and quoting is
unaffected, so on the parsed rows the translation acts field by field. -/

/-- Universal-newlines translation of a character stream: `'\r\n'` and
lone `'\r'` become `'\n'`; the Boolean records whether the previous
character was a `'\r'` (so that a following `'\n'` is swallowed). -/
def univAux : Bool → List Char → List Char
  | _, [] => []
  | afterCR, c :: rest =>
    if c = '\r' then '\n' :: univAux true rest
    else if c = '\n' then
      if afterCR then univAux false rest
      else '\n' :: univAux false rest
    else c :: univAux false rest

/-- Universal-newlines translation of one CSV field. -/
def univField (s : String) : String :=
  ⟨univAux false s.data⟩

/-- The parsed rows the reader obtains from a manifest whose writer
produced `rows`: every field undergoes the universal-newlines
translation. -/
def read_rows (rows : List (List String)) : List (List String) :=
  rows.map (fun r => r.map univField)

/-! ## The manifest reader (`ImageIterator`) -/

/-- The ways `ImageIterator.__init__` / `load_annotations` can fail:
the `open` call raises `FileNotFoundError`/`OSError`; `next(reader)` on a
rowless file raises `StopIteration`; `row[0]` on an empty row raises
`IndexError`. -/
inductive LoadError where
  | fileNotFound
  | stopIteration
  | indexError
deriving DecidableEq, Repr

/-- Model of `ImageIterator.load_annotations`, applied to the parsed rows of the
manifest: `next(reader)` skips the header row (raising `StopIteration` if
there is none), then `[row[0] for row in reader]` takes the first field of
every remaining row (raising `IndexError` on an empty row). -/
def load_annotations (rows : List (List String)) : Except LoadError (List String) :=
  match rows with
  | [] => Except.error LoadError.stopIteration
  | _header :: rest =>
    rest.mapM (fun row =>
      match row with
      | [] => Except.error LoadError.indexError
      | x :: _ => Except.ok x)

/-- The state of an `ImageIterator`: the eagerly loaded `image_paths`
column and the advancing `current_index`. -/
structure ImageIterator where
  image_paths : List String
  current_index : Nat
deriving DecidableEq, Repr

/-- Model of `ImageIterator.__init__` over the manifest file, modelled as
`Option` of its parsed rows (`none` when the file cannot be opened):
sets `current_index = 0` and runs `load_annotations`. -/
def ImageIterator.ofFile (file : Option (List (List String))) :
    Except LoadError ImageIterator :=
  match file with
  | none => Except.error LoadError.fileNotFound
  | some rows => (load_annotations rows).map (fun paths => ⟨paths, 0⟩)

/-- Model of `ImageIterator.__iter__`: returns the object itself, unchanged. -/
def ImageIterator.iter (it : ImageIterator) : ImageIterator := it

/-- Model of `ImageIterator.__next__`: while `current_index < len(image_paths)`,
return `image_paths[current_index]` and advance the index by one;
otherwise raise `StopIteration` (modelled as `none`) leaving the state
untouched. -/
def ImageIterator.next (it : ImageIterator) : Option String × ImageIterator :=
  if h : it.current_index < it.image_paths.length then
    (some (it.image_paths.get ⟨it.current_index, h⟩),
     ⟨it.image_paths, it.current_index + 1⟩)
  else
    (none, it)

/-- Apply `__next__` `n` times, keeping only the state. -/
def ImageIterator.nextN : ImageIterator → Nat → ImageIterator
  | it, 0 => it
  | it, n + 1 => (it.next.2).nextN n

/-- The loop `for image_path in image_iterator`, starting from position
`idx` in `paths`: exactly the values produced by repeated `__next__`
calls until `StopIteration`. -/
def runAux (paths : List String) (idx : Nat) : List String :=
  if h : idx < paths.length then
    paths.get ⟨idx, h⟩ :: runAux paths (idx + 1)
  else
    []
termination_by paths.length - idx

/-- Drain an `ImageIterator`: the list of all values yielded before
exhaustion. -/
def ImageIterator.run (it : ImageIterator) : List String :=
  runAux it.image_paths it.current_index

/-! ## The Acquirer's directory walk (`download_images`, lines 19–25) -/

/-- A directory tree as `os.walk` sees it: the directory's path, its
plain files' names, and its subdirectories. -/
inductive DirTree where
  | node (path : String) (files : List String) (subdirs : List DirTree)

mutual

/-- The `(dirpath, filename)` pairs enumerated by the nested loops
`for dirname, _, filenames in os.walk(...): for filename in filenames`,
in top-down walk order. -/
def DirTree.walkFiles : DirTree → List (String × String)
  | .node path files subdirs =>
    files.map (fun f => (path, f)) ++ walkFilesList subdirs

def walkFilesList : List DirTree → List (String × String)
  | [] => []
  | d :: ds => d.walkFiles ++ walkFilesList ds

end

/-- Python's `str.endswith(suffix)`: case-sensitive literal suffix match,
expressed on the strings' character lists. -/
def endswith (s suffix : String) : Bool :=
  suffix.data.isSuffixOf s.data

/-- Python's `str.startswith(p)` on the strings' character lists. -/
def startswith (s p : String) : Bool :=
  p.data.isPrefixOf s.data

/-- The filter `filename.endswith(('.jpg', '.jpeg', '.png'))`:
true when any of the three suffixes matches. -/
def isImageFile (filename : String) : Bool :=
  endswith filename ".jpg" || endswith filename ".jpeg" || endswith filename ".png"

/-- Model of `os.path.join(dirname, filename)` on path strings, as used to build
each collected path. -/
def os_join (a b : String) : String :=
  if startswith b "/" then b
  else if a = "" ∨ endswith a "/" then a ++ b
  else a ++ "/" ++ b

/-- The list `image_paths` built by `download_images` after the crawl:
walk the tree, keep the files passing the extension filter, join each to
its directory. -/
def download_images_files (t : DirTree) : List String :=
  ((t.walkFiles).filter (fun pr => isImageFile pr.2)).map
    (fun pr => os_join pr.1 pr.2)

/-! ## Sanity checks on concrete inputs -/

example : normpath ⟨1, ["a", "..", "b", ".", "", "c"]⟩ = ⟨1, ["b", "c"]⟩ := by decide
example : normpath ⟨1, ["..", "..", "a"]⟩ = ⟨1, ["a"]⟩ := by decide
example : normpath ⟨0, ["..", "a", "..", ".."]⟩ = ⟨0, ["..", ".."]⟩ := by decide
example : normpath ⟨2, ["a"]⟩ = ⟨2, ["a"]⟩ := by decide
example : normpath ⟨3, ["a"]⟩ = ⟨1, ["a"]⟩ := by decide
example : abspath ⟨1, ["home"]⟩ ⟨0, ["x", "y.jpg"]⟩ = ⟨1, ["home", "x", "y.jpg"]⟩ := by decide
example : abspath ⟨1, ["home"]⟩ ⟨2, ["a", "x.jpg"]⟩ = ⟨2, ["a", "x.jpg"]⟩ := by decide
example :
    relpath ⟨1, ["home"]⟩ ⟨0, ["imgs", "y.jpg"]⟩ ⟨1, ["home", "data"]⟩ =
      ⟨0, ["..", "imgs", "y.jpg"]⟩ := by decide
example : relpath ⟨1, ["home"]⟩ ⟨0, []⟩ ⟨1, ["home"]⟩ = ⟨0, ["."]⟩ := by decide
example : renderPath ⟨1, ["home", "x"]⟩ = "/home/x" := by decide
example : renderPath ⟨2, ["a", "x.jpg"]⟩ = "//a/x.jpg" := by decide
example : renderPath ⟨0, ["."]⟩ = "." := by decide
example : univField "img\rx.jpg" = "img\nx.jpg" := by decide
example : univField "a\r\nb" = "a\nb" := by decide
example : univField "a\nb" = "a\nb" := by decide
example : isImageFile "a.jpg" = true := by decide
example : isImageFile "c.PNG" = false := by decide
example :
    download_images_files (.node "dir" ["a.jpg", "b.txt", "c.PNG", "d.png"] []) =
      ["dir/a.jpg", "dir/d.png"] := by decide
example :
    load_annotations [["absolute_path", "relative_path"], ["a", "ra"], ["b", "rb"]] =
      Except.ok ["a", "b"] := rfl
example : (ImageIterator.run ⟨["a", "b"], 0⟩) = ["a", "b"] := by
  simp [ImageIterator.run, runAux]

/-! ## Helper lemmas about the iterator -/

theorem runAux_eq_drop (paths : List String) (idx : Nat) :
    runAux paths idx = paths.drop idx := by
  rw [runAux]
  split
  · next h =>
      rw [runAux_eq_drop paths (idx + 1), List.drop_eq_getElem_cons h]
      simp
  · next h =>
      rw [List.drop_eq_nil_of_le (Nat.le_of_not_lt h)]
termination_by paths.length - idx

theorem ImageIterator.run_eq_drop (it : ImageIterator) :
    it.run = it.image_paths.drop it.current_index :=
  runAux_eq_drop it.image_paths it.current_index

theorem ImageIterator.next_of_lt (it : ImageIterator)
    (h : it.current_index < it.image_paths.length) :
    it.next = (some (it.image_paths.get ⟨it.current_index, h⟩),
      ⟨it.image_paths, it.current_index + 1⟩) := by
  simp [ImageIterator.next, h]

theorem ImageIterator.next_of_le (it : ImageIterator)
    (h : it.image_paths.length ≤ it.current_index) :
    it.next = (none, it) := by
  simp [ImageIterator.next, Nat.not_lt.mpr h]

theorem ImageIterator.nextN_of_exhausted (it : ImageIterator)
    (h : it.image_paths.length ≤ it.current_index) :
    ∀ n, it.nextN n = it := by
  intro n
  induction n with
  | zero => rfl
  | succ n ih =>
      rw [ImageIterator.nextN, ImageIterator.next_of_le it h, ih]

/-- Running `load_annotations` on data rows that all have a first field succeeds
and returns exactly those first fields. -/
theorem load_annotations_firstFields (header : List String)
    (rest : List (List String)) (h : ∀ r ∈ rest, r ≠ []) :
    load_annotations (header :: rest) =
      Except.ok (rest.map (fun r => r.headI)) := by
  rw [load_annotations]
  induction rest with
  | nil => rfl
  | cons r rs ih =>
      match r, h r (List.mem_cons_self r rs) with
      | x :: xs, _ =>
        have hrec := ih (fun r hr => h r (List.mem_cons_of_mem _ hr))
        rw [List.mapM_cons, hrec]
        rfl

/-- If any data row is the empty row, the first-field extraction of
`load_annotations` fails with `IndexError`. -/
theorem mapM_firstField_emptyRow (pre post : List (List String)) :
    (pre ++ [] :: post).mapM (fun row =>
        match row with
        | [] => Except.error LoadError.indexError
        | x :: _ => Except.ok x) = Except.error LoadError.indexError := by
  induction pre with
  | nil => rfl
  | cons r rs ih =>
      rw [List.cons_append, List.mapM_cons, ih]
      cases r with
      | nil => rfl
      | cons x xs => rfl

/-! ## Helper lemmas about `normAux` and `commonPrefixLen` -/

/-- A `normStep` with `""` or `"."` leaves the stack unchanged. -/
theorem normStep_skip (absolute : Bool) (stack : List String) (c : String)
    (h : c = "" ∨ c = ".") : normStep absolute stack c = stack := by
  rw [normStep.eq_def, if_pos h]

/-- A `normStep` with a clean component pushes it. -/
theorem normStep_push (absolute : Bool) (stack : List String) (c : String)
    (hc : cleanComp c = true) : normStep absolute stack c = c :: stack := by
  have hc3 : ¬ (c = "" ∨ c = "." ∨ c = "..") := by
    simpa [cleanComp] using hc
  push_neg at hc3
  rw [normStep.eq_def, if_neg (by tauto), if_neg hc3.2.2]

/-- A `normStep` with `".."` on a nonempty clean stack pops. -/
theorem normStep_pop (absolute : Bool) (top : String) (below : List String)
    (htop : ¬ top = "..") : normStep absolute (top :: below) ".." = below := by
  rw [normStep.eq_def, if_neg (by decide), if_pos rfl]
  exact if_neg htop

/-- Applying `normStep` on an absolute path preserves cleanness of the stack. -/
theorem normStep_clean (stack : List String) (c : String)
    (h : ∀ d ∈ stack, cleanComp d = true) :
    ∀ d ∈ normStep true stack c, cleanComp d = true := by
  by_cases h1 : c = "" ∨ c = "."
  · rw [normStep_skip true stack c h1]
    exact h
  · by_cases h2 : c = ".."
    · subst h2
      cases stack with
      | nil =>
          intro d hd
          have : normStep true [] ".." = [] := rfl
          rw [this] at hd
          cases hd
      | cons top below =>
          have htop : cleanComp top = true := h top (List.mem_cons_self _ _)
          have htop2 : ¬ top = ".." := by
            simp [cleanComp] at htop
            exact htop.2.2
          rw [normStep_pop true top below htop2]
          exact fun d hd => h d (List.mem_cons_of_mem _ hd)
    · have hc : cleanComp c = true := by
        simp only [cleanComp, decide_eq_true_eq]
        push_neg
        exact ⟨fun he => h1 (Or.inl he), fun he => h1 (Or.inr he), h2⟩
      rw [normStep_push true stack c hc]
      intro d hd
      cases hd with
      | head => exact hc
      | tail _ hd' => exact h d hd'

theorem normAux_append (absolute : Bool) (ys : List String) :
    ∀ (xs stack : List String),
      normAux absolute stack (xs ++ ys) =
        normAux absolute (normAux absolute stack xs).reverse ys := by
  intro xs
  induction xs with
  | nil => intro stack; simp [normAux]
  | cons c cs ih =>
      intro stack
      rw [List.cons_append, normAux, normAux]
      exact ih (normStep absolute stack c)

theorem normAux_clean (xs : List String) :
    ∀ stack, (∀ c ∈ stack, cleanComp c = true) →
      ∀ c ∈ normAux true stack xs, cleanComp c = true := by
  induction xs with
  | nil =>
      intro stack h c hc
      rw [normAux] at hc
      exact h c (List.mem_reverse.mp hc)
  | cons x xs ih =>
      intro stack h c hc
      rw [normAux] at hc
      exact ih (normStep true stack x) (normStep_clean stack x h) c hc

theorem normAux_pops (ys : List String) :
    ∀ (k : Nat) (stack : List String), (∀ c ∈ stack, cleanComp c = true) →
      k ≤ stack.length →
      normAux true stack (List.replicate k ".." ++ ys) =
        normAux true (stack.drop k) ys := by
  intro k
  induction k with
  | zero => intro stack h hk; rfl
  | succ k ih =>
      intro stack h hk
      cases stack with
      | nil => exact absurd hk (by simp)
      | cons top below =>
          have htop : cleanComp top = true := h top (List.mem_cons_self _ _)
          have htop2 : ¬ top = ".." := by
            simp [cleanComp] at htop
            exact htop.2.2
          rw [List.replicate_succ, List.cons_append, normAux,
            normStep_pop true top below htop2]
          exact ih below (fun d hd => h d (List.mem_cons_of_mem _ hd))
            (Nat.le_of_succ_le_succ hk)

theorem normAux_pushes :
    ∀ ys : List String, (∀ c ∈ ys, cleanComp c = true) →
      ∀ stack, normAux true stack ys = stack.reverse ++ ys := by
  intro ys
  induction ys with
  | nil => intro hys stack; simp [normAux]
  | cons y ys ih =>
      intro hys stack
      have hy : cleanComp y = true := hys y (List.mem_cons_self _ _)
      rw [normAux, normStep_push true stack y hy,
        ih (fun d hd => hys d (List.mem_cons_of_mem _ hd)) (y :: stack)]
      simp

theorem commonPrefixLen_le_left :
    ∀ a b : List String, commonPrefixLen a b ≤ a.length := by
  intro a
  induction a with
  | nil => intro b; simp [commonPrefixLen]
  | cons x xs ih =>
      intro b
      cases b with
      | nil => simp [commonPrefixLen]
      | cons y ys =>
          rw [commonPrefixLen]
          by_cases h : x = y
          · rw [if_pos h]
            simpa using ih ys
          · rw [if_neg h]
            simp

theorem commonPrefixLen_take_eq :
    ∀ a b : List String,
      a.take (commonPrefixLen a b) = b.take (commonPrefixLen a b) := by
  intro a
  induction a with
  | nil => intro b; simp [commonPrefixLen]
  | cons x xs ih =>
      intro b
      cases b with
      | nil => simp [commonPrefixLen]
      | cons y ys =>
          rw [commonPrefixLen]
          by_cases h : x = y
          · rw [if_pos h]
            simp only [List.take_succ_cons, h]
            rw [ih ys]
          · rw [if_neg h]
            simp

theorem reverse_drop (l : List String) (k : Nat) (h : k ≤ l.length) :
    l.reverse.drop k = (l.take (l.length - k)).reverse := by
  rw [List.reverse_take, Nat.sub_sub_self h]

theorem commonPrefixLen_le_right :
    ∀ a b : List String, commonPrefixLen a b ≤ b.length := by
  intro a
  induction a with
  | nil => intro b; simp [commonPrefixLen]
  | cons x xs ih =>
      intro b
      cases b with
      | nil => simp [commonPrefixLen]
      | cons y ys =>
          rw [commonPrefixLen]
          by_cases h : x = y
          · rw [if_pos h]
            simpa using ih ys
          · rw [if_neg h]
            simp

/-- An empty `rel_list` means the two absolute component lists coincide. -/
theorem relComps_eq_nil (sa pa : List String) (h : relComps sa pa = []) :
    sa = pa := by
  simp only [relComps] at h
  rw [List.append_eq_nil] at h
  obtain ⟨h1, h2⟩ := h
  have hi1 : sa.length ≤ commonPrefixLen sa pa := by
    have hl := congrArg List.length h1
    simp only [List.length_replicate, List.length_nil] at hl
    exact Nat.le_of_sub_eq_zero hl
  have hi2 : pa.length ≤ commonPrefixLen sa pa := by
    have hl := congrArg List.length h2
    simp only [List.length_drop, List.length_nil] at hl
    exact Nat.le_of_sub_eq_zero hl
  have hia : commonPrefixLen sa pa = sa.length :=
    Nat.le_antisymm (commonPrefixLen_le_left sa pa) hi1
  have hib : commonPrefixLen sa pa = pa.length :=
    Nat.le_antisymm (commonPrefixLen_le_right sa pa) hi2
  have h3 : sa.take (commonPrefixLen sa pa) = sa := by
    rw [hia]
    exact List.take_length sa
  have h4 : pa.take (commonPrefixLen sa pa) = pa := by
    rw [hib]
    exact List.take_length pa
  rw [← h3, commonPrefixLen_take_eq, h4]

/-- Under a working directory with a single-slash root, `abspath`
normalises the concatenation of `cwd` (when the path is relative) with
the path, and its root is the normalised root of the path (or `1`). -/
theorem abspath_eq (cwd q : PPath) (hcwd : cwd.root = 1) :
    abspath cwd q =
      ⟨if isabs q = true then normRoot q.root else 1,
       normAux true [] (if isabs q = true then q.comps else cwd.comps ++ q.comps)⟩ := by
  by_cases h : isabs q = true
  · simp [abspath, h, normpath]
  · have h0 : q.root = 0 := by
      simpa [isabs] using h
    simp [abspath, h, pjoin, normpath, isabs, hcwd, normRoot, h0]

/-- Core cancellation behind `posixpath.relpath`: appending the
`rel_list` (`".."` once for each component of `start` past the common
prefix, then the remainder of the target) to the unnormalised `start`
components and normalising yields exactly the normalised target
components. -/
theorem norm_relpath_cancel (Xs Xp : List String) :
    normAux true [] (Xs ++ relComps (normAux true [] Xs) (normAux true [] Xp)) =
      normAux true [] Xp := by
  simp only [relComps]
  have hsa_clean : ∀ c ∈ normAux true [] Xs, cleanComp c = true :=
    normAux_clean Xs [] (by intro c hc; cases hc)
  have hpa_clean : ∀ c ∈ normAux true [] Xp, cleanComp c = true :=
    normAux_clean Xp [] (by intro c hc; cases hc)
  set sa := normAux true [] Xs with hsa
  set pa := normAux true [] Xp with hpa
  set i := commonPrefixLen sa pa with hi_def
  have hi : i ≤ sa.length := commonPrefixLen_le_left sa pa
  rw [normAux_append true (List.replicate (sa.length - i) ".." ++ pa.drop i) Xs []]
  rw [← hsa]
  rw [normAux_pops (pa.drop i) (sa.length - i) sa.reverse
    (fun c hc => hsa_clean c (List.mem_reverse.mp hc))
    (by rw [List.length_reverse]; exact Nat.sub_le _ _)]
  rw [reverse_drop sa (sa.length - i) (Nat.sub_le _ _), Nat.sub_sub_self hi]
  rw [normAux_pushes (pa.drop i)
    (fun c hc => hpa_clean c (List.drop_subset _ _ hc)) (sa.take i).reverse]
  rw [List.reverse_reverse]
  have ht := commonPrefixLen_take_eq sa pa
  rw [← hi_def] at ht
  rw [ht, List.take_append_drop]

theorem string_eq_of_data (a b : String) (h : a.data = b.data) : a = b := by
  cases a
  cases b
  simp_all

theorem foldl_append_acc (l : List String) :
    ∀ acc : String, List.foldl (· ++ ·) acc l = acc ++ List.foldl (· ++ ·) "" l := by
  induction l with
  | nil => intro acc; simp [String.append_empty]
  | cons a as ih =>
      intro acc
      simp only [List.foldl]
      rw [ih (acc ++ a), ih ("" ++ a), String.empty_append, String.append_assoc]

theorem string_join_cons (a : String) (l : List String) :
    String.join (a :: l) = a ++ String.join l := by
  simp only [String.join, List.foldl]
  rw [foldl_append_acc l ("" ++ a), String.empty_append]

theorem csvLine_two (a b : String) :
    csvLine [a, b] = csvField a ++ "," ++ csvField b := rfl

/-- Normalising after appending a final `os.curdir` component is the
same as normalising without it. -/
theorem normAux_dot (Xs : List String) :
    normAux true [] (Xs ++ ["."]) = normAux true [] Xs := by
  rw [normAux_append true ["."] Xs []]
  rw [normAux, normStep_skip true ((normAux true [] Xs).reverse) "." (Or.inr rfl), normAux]
  simp

/-- Joining a relative path onto `D` and making the result absolute:
the root is the root of `abspath D` and the components are the
concatenation, normalised. -/
theorem abspath_pjoin_rel (cwd D : PPath) (hcwd : cwd.root = 1) (rel : List String) :
    abspath cwd (pjoin D ⟨0, rel⟩) =
      ⟨(abspath cwd D).root,
       normAux true [] ((if isabs D = true then D.comps else cwd.comps ++ D.comps) ++ rel)⟩ := by
  have hpj : pjoin D ⟨0, rel⟩ = ⟨D.root, D.comps ++ rel⟩ := by
    simp [pjoin, isabs]
  rw [hpj, abspath_eq cwd ⟨D.root, D.comps ++ rel⟩ hcwd, abspath_eq cwd D hcwd]
  by_cases hD : isabs D = true
  · have hD2 : isabs (PPath.mk D.root (D.comps ++ rel)) = true := hD
    simp [hD, hD2]
  · have hD' : isabs D = false := by
      cases hx : isabs D
      · rfl
      · exact absurd hx hD
    have hD2 : isabs (PPath.mk D.root (D.comps ++ rel)) = false := hD'
    simp [hD', hD2, List.append_assoc]

/-- Universal-newlines translation does not change a `'\r'`-free
character list. -/
theorem univAux_of_no_cr :
    ∀ l : List Char, '\r' ∉ l → univAux false l = l := by
  intro l
  induction l with
  | nil => intro h; rfl
  | cons c rest ih =>
      intro h
      have hc : ¬ c = '\r' := fun hcc => h (hcc ▸ List.mem_cons_self c rest)
      rw [univAux, if_neg hc]
      by_cases hn : c = '\n'
      · rw [if_pos hn]
        simp only [Bool.false_eq_true, if_false]
        rw [ih (fun hm => h (List.mem_cons_of_mem _ hm)), hn]
      · rw [if_neg hn, ih (fun hm => h (List.mem_cons_of_mem _ hm))]

/-- Universal-newlines translation does not change a `'\r'`-free field. -/
theorem univField_of_no_cr (s : String) (h : '\r' ∉ s.data) :
    univField s = s := by
  rw [univField, univAux_of_no_cr s.data h]

/-- The test `endswith s suf` holds exactly when `s` is some string followed by
the literal suffix `suf`. -/
theorem endswith_iff (s suf : String) :
    endswith s suf = true ↔ ∃ pre : String, s = pre ++ suf := by
  rw [endswith, List.isSuffixOf_iff_suffix]
  constructor
  · intro h
    obtain ⟨t, ht⟩ := h
    exact ⟨⟨t⟩, (string_eq_of_data _ _ (by rw [String.data_append]; exact ht)).symm⟩
  · intro h
    obtain ⟨pre, hpre⟩ := h
    exact ⟨pre.data, by rw [hpre, String.data_append]⟩

/-! ## Claim theorems: the manifest reader -/

/-- C3: once `current_index` has reached the length of the loaded
sequence, `__next__` raises `StopIteration` leaving the state unchanged,
so every later call does the same — it never yields a value, never raises
a different error, and never restarts. -/
theorem exhaustion_stable_C3 (it : ImageIterator)
    (h : it.image_paths.length ≤ it.current_index) :
    it.next = (none, it) ∧ ∀ n, it.nextN n = it :=
  ⟨it.next_of_le h, it.nextN_of_exhausted h⟩

theorem exhaustion_stable_C3_witness :
    (["a"] : List String).length ≤ 1 ∧
      (ImageIterator.next ⟨["a"], 1⟩ = (none, ⟨["a"], 1⟩) ∧
        ∀ n, ImageIterator.nextN ⟨["a"], 1⟩ n = ⟨["a"], 1⟩) :=
  ⟨by decide, exhaustion_stable_C3 ⟨["a"], 1⟩ (by decide)⟩

/-- C4 counterexample: constructing an `ImageIterator` over a completely
empty manifest file (no rows at all) does not succeed — `next(reader)` on
the rowless file raises `StopIteration`, which propagates out of
`__init__`. -/
theorem empty_manifest_C4_cex :
    ImageIterator.ofFile (some []) = Except.error LoadError.stopIteration := rfl

/-- C4 (amended): over a manifest with only a header row, construction
succeeds with an empty loaded sequence and the iterator is exhausted from
the first `next()` call; over a completely empty file, construction fails
with the `StopIteration` raised by the header skip. -/
theorem empty_manifest_C4 (header : List String) :
    ImageIterator.ofFile (some [header]) = Except.ok ⟨[], 0⟩ ∧
      (ImageIterator.next ⟨[], 0⟩).1 = none ∧
      ImageIterator.ofFile (some []) = Except.error LoadError.stopIteration :=
  ⟨rfl, rfl, rfl⟩

/-- C7: a manifest that cannot be opened makes construction fail with a
file-not-found error, and a manifest containing an empty data row makes
construction fail with an indexing error; in both cases no iterator is
produced (the result is an `Except.error`). -/
theorem malformed_or_missing_manifest_C7 :
    ImageIterator.ofFile none = Except.error LoadError.fileNotFound ∧
      ∀ (header : List String) (pre post : List (List String)),
        ImageIterator.ofFile (some (header :: (pre ++ [] :: post))) =
          Except.error LoadError.indexError := by
  refine ⟨rfl, fun header pre post => ?_⟩
  show (load_annotations (header :: (pre ++ [] :: post))).map
      (fun paths => ImageIterator.mk paths 0) = Except.error LoadError.indexError
  rw [load_annotations, mapM_firstField_emptyRow]
  rfl

/-- C8: construction and iteration are deterministic in the file
contents — two iterators constructed over the same unmodified manifest
are equal and drain to identical sequences. -/
theorem deterministic_reread_C8 (file : Option (List (List String)))
    (it1 it2 : ImageIterator)
    (h1 : ImageIterator.ofFile file = Except.ok it1)
    (h2 : ImageIterator.ofFile file = Except.ok it2) :
    it1 = it2 ∧ it1.run = it2.run := by
  have h := h1.symm.trans h2
  have h3 : it1 = it2 := by injection h
  exact ⟨h3, by rw [h3]⟩

theorem deterministic_reread_C8_witness :
    (ImageIterator.ofFile (some [["absolute_path", "relative_path"], ["a", "ra"]]) =
        Except.ok ⟨["a"], 0⟩) ∧
      (ImageIterator.ofFile (some [["absolute_path", "relative_path"], ["a", "ra"]]) =
        Except.ok ⟨["a"], 0⟩) ∧
      ((⟨["a"], 0⟩ : ImageIterator) = ⟨["a"], 0⟩ ∧
        ImageIterator.run ⟨["a"], 0⟩ = ImageIterator.run ⟨["a"], 0⟩) :=
  ⟨rfl, rfl, deterministic_reread_C8 (some [["absolute_path", "relative_path"], ["a", "ra"]])
    ⟨["a"], 0⟩ ⟨["a"], 0⟩ rfl rfl⟩

/-- C9: `__iter__` returns the same iterator without resetting
`current_index` (so a `for`-loop over a partially consumed iterator
resumes from the current position), and no operation — `__iter__` or
`__next__` — ever decreases `current_index`. -/
theorem iter_is_identity_C9 (it : ImageIterator) :
    it.iter = it ∧ it.iter.current_index = it.current_index ∧
      it.iter.run = it.run ∧
      it.current_index ≤ it.iter.current_index ∧
      it.current_index ≤ it.next.2.current_index := by
  refine ⟨rfl, rfl, rfl, Nat.le_refl _, ?_⟩
  by_cases h : it.current_index < it.image_paths.length
  · rw [it.next_of_lt h]
    exact Nat.le_succ _
  · rw [it.next_of_le (Nat.le_of_not_lt h)]

/-- C10: every operation preserves
`current_index ≤ image_paths.length` (construction establishes it with
index `0`), a successful `next()` call returns the element at the
pre-call index and increments the index by exactly one, and a fresh
iterator yields exactly `image_paths.length` elements before
exhaustion. -/
theorem iterator_index_invariant_C10 (it : ImageIterator)
    (h : it.current_index ≤ it.image_paths.length) :
    it.next.2.current_index ≤ it.next.2.image_paths.length ∧
      it.iter.current_index ≤ it.iter.image_paths.length ∧
      (∀ hlt : it.current_index < it.image_paths.length,
        it.next.1 = some (it.image_paths.get ⟨it.current_index, hlt⟩) ∧
          it.next.2.current_index = it.current_index + 1) ∧
      (∀ (file : Option (List (List String))) (it0 : ImageIterator),
        ImageIterator.ofFile file = Except.ok it0 → it0.current_index = 0) ∧
      ∀ paths : List String,
        ImageIterator.run ⟨paths, 0⟩ = paths ∧
          (ImageIterator.run ⟨paths, 0⟩).length = paths.length := by
  refine ⟨?_, h, ?_, ?_, ?_⟩
  · by_cases hlt : it.current_index < it.image_paths.length
    · rw [it.next_of_lt hlt]
      exact hlt
    · rw [it.next_of_le (Nat.le_of_not_lt hlt)]
      exact h
  · intro hlt
    rw [it.next_of_lt hlt]
    exact ⟨rfl, rfl⟩
  · intro file it0 hfile
    match file with
    | none => exact absurd hfile (by simp [ImageIterator.ofFile])
    | some rows =>
        rw [ImageIterator.ofFile] at hfile
        cases hload : load_annotations rows with
        | error e => rw [hload] at hfile; exact absurd hfile (by simp [Except.map])
        | ok v =>
            rw [hload] at hfile
            have : ImageIterator.mk v 0 = it0 := by injection hfile
            rw [← this]
  · intro paths
    have hrun : ImageIterator.run ⟨paths, 0⟩ = paths := by
      rw [ImageIterator.run_eq_drop]
      rfl
    exact ⟨hrun, by rw [hrun]⟩

/-- C2: the Acquirer's post-download walk collects exactly those files of
the directory tree (across all subdirectories) whose name ends in the
literal, case-sensitive suffix `.jpg`, `.jpeg` or `.png`; in particular,
for a directory containing `a.jpg`, `b.txt`, `c.PNG`, `d.png` the
collection is exactly `a.jpg` and `d.png`. -/
theorem extension_filter_C2 :
    (∀ (t : DirTree) (x : String),
      x ∈ download_images_files t ↔
        ∃ pr, pr ∈ t.walkFiles ∧ isImageFile pr.2 = true ∧ os_join pr.1 pr.2 = x) ∧
      (∀ f : String,
        isImageFile f = true ↔
          (∃ pre : String, f = pre ++ ".jpg") ∨ (∃ pre : String, f = pre ++ ".jpeg") ∨
            ∃ pre : String, f = pre ++ ".png") ∧
      download_images_files (.node "dir" ["a.jpg", "b.txt", "c.PNG", "d.png"] []) =
        ["dir/a.jpg", "dir/d.png"] := by
  refine ⟨?_, ?_, by decide⟩
  · intro t x
    simp only [download_images_files, List.mem_map, List.mem_filter]
    constructor
    · rintro ⟨pr, ⟨hmem, hfilt⟩, hjoin⟩
      exact ⟨pr, hmem, hfilt, hjoin⟩
    · rintro ⟨pr, hmem, hfilt, hjoin⟩
      exact ⟨pr, ⟨hmem, hfilt⟩, hjoin⟩
  · intro f
    rw [isImageFile, Bool.or_eq_true, Bool.or_eq_true, endswith_iff, endswith_iff,
      endswith_iff]
    tauto

/-- C5 counterexample: CPython's `posixpath.normpath` preserves a root
of exactly two leading slashes, but `posixpath.relpath` drops the root
when building the relative steps.  For the image path `'//a/x.jpg'` and
manifest `'/b/m.csv'` the written absolute path is `'//a/x.jpg'` while
resolving the written relative path `'../a/x.jpg'` against `'/b'` yields
`'/a/x.jpg'` — the claimed identity fails on the program, even under a
normal single-slash-rooted working directory. -/
theorem relative_path_correct_C5_cex :
    (PPath.root ⟨1, ["home"]⟩ = 1) ∧
      abspath ⟨1, ["home"]⟩ ⟨2, ["a", "x.jpg"]⟩ = ⟨2, ["a", "x.jpg"]⟩ ∧
      relpath ⟨1, ["home"]⟩ ⟨2, ["a", "x.jpg"]⟩ (dirname ⟨1, ["b", "m.csv"]⟩) =
        ⟨0, ["..", "a", "x.jpg"]⟩ ∧
      abspath ⟨1, ["home"]⟩ (pjoin (dirname ⟨1, ["b", "m.csv"]⟩)
          (relpath ⟨1, ["home"]⟩ ⟨2, ["a", "x.jpg"]⟩
            (dirname ⟨1, ["b", "m.csv"]⟩))) =
        ⟨1, ["a", "x.jpg"]⟩ ∧
      ¬ abspath ⟨1, ["home"]⟩ (pjoin (dirname ⟨1, ["b", "m.csv"]⟩)
            (relpath ⟨1, ["home"]⟩ ⟨2, ["a", "x.jpg"]⟩
              (dirname ⟨1, ["b", "m.csv"]⟩))) =
          abspath ⟨1, ["home"]⟩ ⟨2, ["a", "x.jpg"]⟩ :=
  ⟨rfl, by decide, by decide, by decide, by decide⟩

/-- C5 (amended): for every written row whose image path's absolute form
has the same number of leading slashes as the manifest directory's
absolute form (CPython preserves a root of exactly two slashes, and
`relpath` discards roots, so mismatched `'//'` roots break the
identity), resolving the written relative path against the directory
containing the manifest yields the written absolute path:
`abspath(join(dirname(M), relpath(p, dirname(M)))) = abspath(p)`, given
the same single-slash-rooted working directory at write time. -/
theorem relative_path_correct_C5 (cwd p M : PPath) (hcwd : cwd.root = 1)
    (hroot : (abspath cwd p).root = (abspath cwd (dirname M)).root) :
    abspath cwd (pjoin (dirname M) (relpath cwd p (dirname M))) = abspath cwd p := by
  have hA := abspath_eq cwd p hcwd
  have hS := abspath_eq cwd (dirname M) hcwd
  set Xp := if isabs p = true then p.comps else cwd.comps ++ p.comps with hXp
  set XD := if isabs (dirname M) = true then (dirname M).comps
    else cwd.comps ++ (dirname M).comps with hXD
  rw [hA, hS] at hroot
  dsimp only at hroot
  have hrel : relpath cwd p (dirname M) =
      (if relComps (normAux true [] XD) (normAux true [] Xp) = []
       then (⟨0, ["."]⟩ : PPath)
       else ⟨0, relComps (normAux true [] XD) (normAux true [] Xp)⟩) := by
    simp only [relpath, hA, hS]
  rw [hrel]
  by_cases hnil : relComps (normAux true [] XD) (normAux true [] Xp) = []
  · rw [if_pos hnil, abspath_pjoin_rel cwd (dirname M) hcwd ["."], ← hXD,
      normAux_dot, relComps_eq_nil _ _ hnil, hS, hA]
    dsimp only
    rw [hroot]
  · rw [if_neg hnil, abspath_pjoin_rel cwd (dirname M) hcwd _, ← hXD,
      norm_relpath_cancel XD Xp, hS, hA]
    dsimp only
    rw [hroot]

theorem relative_path_correct_C5_witness :
    (PPath.root ⟨1, ["home"]⟩ = 1) ∧
      (abspath ⟨1, ["home"]⟩ ⟨0, ["imgs", "x.jpg"]⟩).root =
        (abspath ⟨1, ["home"]⟩ (dirname ⟨0, ["data", "ann.csv"]⟩)).root ∧
      abspath ⟨1, ["home"]⟩ (pjoin (dirname ⟨0, ["data", "ann.csv"]⟩)
          (relpath ⟨1, ["home"]⟩ ⟨0, ["imgs", "x.jpg"]⟩
            (dirname ⟨0, ["data", "ann.csv"]⟩))) =
        abspath ⟨1, ["home"]⟩ ⟨0, ["imgs", "x.jpg"]⟩ :=
  ⟨rfl, by decide, relative_path_correct_C5 ⟨1, ["home"]⟩ ⟨0, ["imgs", "x.jpg"]⟩
    ⟨0, ["data", "ann.csv"]⟩ rfl (by decide)⟩

/-- C1 counterexample: the reader reopens the manifest without
`newline=''`, so universal-newlines translation rewrites a carriage
return inside a written (quoted) field to `'\n'`.  For the single image
path `'img\rx.jpg'` the written absolute path is `'/home/img\rx.jpg'`,
but the freshly constructed iterator loads `'/home/img\nx.jpg'`, so it
does not yield the absolute paths of the input list. -/
theorem roundtrip_C1_cex :
    ImageIterator.ofFile (some (read_rows (save_annotations_rows ⟨1, ["home"]⟩
          [⟨0, ["img\rx.jpg"]⟩] ⟨0, ["m.csv"]⟩))) =
        Except.ok ⟨["/home/img\nx.jpg"], 0⟩ ∧
      renderPath (abspath ⟨1, ["home"]⟩ ⟨0, ["img\rx.jpg"]⟩) = "/home/img\rx.jpg" ∧
      ¬ ["/home/img\nx.jpg"] =
          [renderPath (abspath ⟨1, ["home"]⟩ ⟨0, ["img\rx.jpg"]⟩)] :=
  ⟨rfl, by decide, by decide⟩

/-- C1 (amended): for every list of image paths `P` written by
`save_annotations` to a manifest whose rendered absolute and relative
fields contain no carriage return (a `'\r'` in a field is rewritten to
`'\n'` by the reader's universal-newlines translation), a freshly
constructed `ImageIterator` over that manifest loads exactly the
absolute paths (`os.path.abspath`) of the elements of `P`, yields them
in the same order, and then signals `StopIteration` stably. -/
theorem roundtrip_C1 (cwd : PPath) (P : List PPath) (M : PPath)
    (hcr : ∀ p ∈ P, '\r' ∉ (renderPath (abspath cwd p)).data ∧
        '\r' ∉ (renderPath (relpath cwd p (dirname M))).data) :
    ImageIterator.ofFile (some (read_rows (save_annotations_rows cwd P M))) =
        Except.ok ⟨P.map (fun p => renderPath (abspath cwd p)), 0⟩ ∧
      ImageIterator.run ⟨P.map (fun p => renderPath (abspath cwd p)), 0⟩ =
        P.map (fun p => renderPath (abspath cwd p)) ∧
      ImageIterator.next ⟨P.map (fun p => renderPath (abspath cwd p)),
          (P.map (fun p => renderPath (abspath cwd p))).length⟩ =
        (none, ⟨P.map (fun p => renderPath (abspath cwd p)),
          (P.map (fun p => renderPath (abspath cwd p))).length⟩) := by
  have hread : read_rows (save_annotations_rows cwd P M) =
      save_annotations_rows cwd P M := by
    rw [read_rows, save_annotations_rows, List.map_cons]
    congr 1
    rw [List.map_map]
    apply List.map_congr_left
    intro p hp
    show List.map univField
        [renderPath (abspath cwd p), renderPath (relpath cwd p (dirname M))] = _
    rw [List.map_cons, List.map_cons, List.map_nil,
      univField_of_no_cr _ (hcr p hp).1, univField_of_no_cr _ (hcr p hp).2]
  rw [hread]
  refine ⟨?_, ?_, ?_⟩
  · show (load_annotations (save_annotations_rows cwd P M)).map
      (fun paths => ImageIterator.mk paths 0) = _
    rw [save_annotations_rows]
    rw [load_annotations_firstFields _ _ (by
      intro r hr
      rw [List.mem_map] at hr
      obtain ⟨q, hq, hq2⟩ := hr
      rw [← hq2]
      simp)]
    rw [List.map_map]
    rfl
  · exact (ImageIterator.run_eq_drop _).trans (List.drop_zero _)
  · exact ImageIterator.next_of_le _ (Nat.le_refl _)

theorem roundtrip_C1_witness :
    (∀ p ∈ ([⟨0, ["imgs", "x.jpg"]⟩] : List PPath),
        '\r' ∉ (renderPath (abspath ⟨1, ["home"]⟩ p)).data ∧
          '\r' ∉ (renderPath (relpath ⟨1, ["home"]⟩ p
            (dirname ⟨0, ["m.csv"]⟩))).data) ∧
      (ImageIterator.ofFile (some (read_rows (save_annotations_rows ⟨1, ["home"]⟩
            [⟨0, ["imgs", "x.jpg"]⟩] ⟨0, ["m.csv"]⟩))) =
          Except.ok ⟨([⟨0, ["imgs", "x.jpg"]⟩] : List PPath).map
            (fun p => renderPath (abspath ⟨1, ["home"]⟩ p)), 0⟩ ∧
        ImageIterator.run ⟨([⟨0, ["imgs", "x.jpg"]⟩] : List PPath).map
            (fun p => renderPath (abspath ⟨1, ["home"]⟩ p)), 0⟩ =
          ([⟨0, ["imgs", "x.jpg"]⟩] : List PPath).map
            (fun p => renderPath (abspath ⟨1, ["home"]⟩ p)) ∧
        ImageIterator.next ⟨([⟨0, ["imgs", "x.jpg"]⟩] : List PPath).map
              (fun p => renderPath (abspath ⟨1, ["home"]⟩ p)),
            (([⟨0, ["imgs", "x.jpg"]⟩] : List PPath).map
              (fun p => renderPath (abspath ⟨1, ["home"]⟩ p))).length⟩ =
          (none, ⟨([⟨0, ["imgs", "x.jpg"]⟩] : List PPath).map
              (fun p => renderPath (abspath ⟨1, ["home"]⟩ p)),
            (([⟨0, ["imgs", "x.jpg"]⟩] : List PPath).map
              (fun p => renderPath (abspath ⟨1, ["home"]⟩ p))).length⟩)) :=
  ⟨by decide, roundtrip_C1 ⟨1, ["home"]⟩ [⟨0, ["imgs", "x.jpg"]⟩] ⟨0, ["m.csv"]⟩
    (by decide)⟩

/-- C6 counterexample: `save_annotations` does not use the
platform-default line terminator.  The file is opened with `newline=''`
and `csv.writer`'s default dialect terminates every line with `"\r\n"`,
so on a platform whose default terminator is `"\n"` (POSIX) the written
text differs from the claim's prediction: already for an empty input
list the manifest is `"absolute_path,relative_path\r\n"`, not
`"absolute_path,relative_path\n"`. -/
theorem manifest_format_C6_cex :
    save_annotations_text ⟨1, ["home"]⟩ [] ⟨0, ["m.csv"]⟩ =
        "absolute_path,relative_path\r\n" ∧
      ¬ save_annotations_text ⟨1, ["home"]⟩ [] ⟨0, ["m.csv"]⟩ =
          save_annotations_text_platformDefault "\n" ⟨1, ["home"]⟩ []
            ⟨0, ["m.csv"]⟩ := by
  exact ⟨by decide, by decide⟩

/-- C6 (amended): for every input list of `n` image paths,
`save_annotations` produces exactly one header line
`absolute_path,relative_path` followed by exactly `n` data lines, each
consisting of the two CSV-rendered fields (minimally quoted exactly when
the path requires it) joined by a comma, in input order, with no
trailing summary line — each line terminated by the CSV dialect's
`"\r\n"` on every platform (not the platform default). -/
theorem manifest_format_C6 (cwd : PPath) (P : List PPath) (M : PPath) :
    save_annotations_text cwd P M =
      "absolute_path,relative_path" ++ "\r\n" ++
        String.join (P.map (fun p =>
          csvField (renderPath (abspath cwd p)) ++ "," ++
            csvField (renderPath (relpath cwd p (dirname M))) ++ "\r\n")) := by
  rw [save_annotations_text, save_annotations_rows, csvRender, renderRowsWith]
  have hhdr : csvLine ["absolute_path", "relative_path"] =
      "absolute_path,relative_path" := by decide
  rw [hhdr]
  have hbody : ∀ Q : List PPath,
      renderRowsWith csvTerminator (Q.map (fun p =>
          [renderPath (abspath cwd p), renderPath (relpath cwd p (dirname M))])) =
        String.join (Q.map (fun p =>
          csvField (renderPath (abspath cwd p)) ++ "," ++
            csvField (renderPath (relpath cwd p (dirname M))) ++ "\r\n")) := by
    intro Q
    induction Q with
    | nil => rfl
    | cons p ps ih =>
        rw [List.map_cons, renderRowsWith, List.map_cons, string_join_cons,
          csvLine_two, ih]
        rfl
  rw [hbody P]
  rfl

theorem iterator_index_invariant_C10_witness :
    (ImageIterator.current_index ⟨["a"], 0⟩ ≤
        (ImageIterator.image_paths ⟨["a"], 0⟩).length) ∧
      ((ImageIterator.next ⟨["a"], 0⟩).2.current_index ≤
          (ImageIterator.next ⟨["a"], 0⟩).2.image_paths.length ∧
        (ImageIterator.iter ⟨["a"], 0⟩).current_index ≤
          (ImageIterator.iter ⟨["a"], 0⟩).image_paths.length ∧
        (∀ hlt : ImageIterator.current_index ⟨["a"], 0⟩ <
            (ImageIterator.image_paths ⟨["a"], 0⟩).length,
          (ImageIterator.next ⟨["a"], 0⟩).1 =
              some ((ImageIterator.image_paths ⟨["a"], 0⟩).get
                ⟨ImageIterator.current_index ⟨["a"], 0⟩, hlt⟩) ∧
            (ImageIterator.next ⟨["a"], 0⟩).2.current_index =
              ImageIterator.current_index ⟨["a"], 0⟩ + 1) ∧
        (∀ (file : Option (List (List String))) (it0 : ImageIterator),
          ImageIterator.ofFile file = Except.ok it0 → it0.current_index = 0) ∧
        ∀ paths : List String,
          ImageIterator.run ⟨paths, 0⟩ = paths ∧
            (ImageIterator.run ⟨paths, 0⟩).length = paths.length) :=
  ⟨by decide, iterator_index_invariant_C10 ⟨["a"], 0⟩ (by decide)⟩

end Lab2
